import Mathlib

/-!
Shallow embedding of the core of the `prompt_toolkit` terminal line-editing
library (files `prompt_toolkit/history.py`, `prompt_toolkit/inputstream_handler.py`,
`prompt_toolkit/renderer.py`, `prompt_toolkit/contrib/repl.py`), together with
proofs settling the frozen claims about it.

Python strings are modelled as `List Char`; the text-mode file written by
`FileHistory` is modelled as the raw character stream, with line iteration
splitting after each newline character.
-/

namespace PTK

/-- Python `s.split('\n')`: the separator-free pieces of `s`, in order.
`split('')` gives one empty piece, matching Python. -/
def splitNl : List Char → List (List Char)
  | [] => [[]]
  | c :: rest =>
    if c = '\n' then [] :: splitNl rest
    else
      match splitNl rest with
      | [] => [[c]]
      | p :: ps => (c :: p) :: ps

/-- Python text-file line iteration (`for line in f`): the lines of a raw
character stream, each line keeping its trailing newline; a final unterminated
line is kept without one. -/
def fileLines : List Char → List (List Char)
  | [] => []
  | c :: rest =>
    if c = '\n' then ['\n'] :: fileLines rest
    else
      match fileLines rest with
      | [] => [[c]]
      | p :: ps => (c :: p) :: ps

/-- Python `line.startswith('+')`. -/
def startsWithPlus : List Char → Bool
  | '+' :: _ => true
  | _ => false

/-!  `FileHistory` (`prompt_toolkit/history.py`). -/

/-- The inner `add()` of `FileHistory._load`: if some `+`-lines were collected,
join them and drop the trailing newline (Python `''.join(lines)[:-1]`),
appending the resulting record. -/
def addRecord (strings : List (List Char)) (lns : List (List Char)) :
    List (List Char) :=
  if lns = [] then strings else strings ++ [(lns.flatten).dropLast]

/-- One iteration of the `for line in f` loop of `FileHistory._load`:
a line starting with `+` extends the current record (keeping everything after
the `+`); any other line closes the current record. -/
def loadStep (acc : List (List Char) × List (List Char)) (line : List Char) :
    List (List Char) × List (List Char) :=
  if startsWithPlus line then (acc.1, acc.2 ++ [line.drop 1])
  else (addRecord acc.1 acc.2, [])

/-- `FileHistory._load` applied to an existing file's contents: fold the loop
body over the file's lines, then run the final `add()`. -/
def fileHistoryLoad (content : List Char) : List (List Char) :=
  let st := (fileLines content).foldl loadStep ([], [])
  addRecord st.1 st.2

/-- `FileHistory.append`'s effect on the file: append a record consisting of a
blank line, a `# <timestamp>` header line, and one `+`-prefixed line per
newline-separated piece of the appended string. -/
def fileHistoryAppend (content : List Char) (ts s : List Char) : List Char :=
  content ++ ('\n' :: '#' :: ' ' :: (ts ++ ['\n']))
    ++ ((splitNl s).map (fun l => '+' :: (l ++ ['\n']))).flatten

/-- A sequence of `FileHistory.append` calls, each with a timestamp string and
the appended entry. -/
def fileHistoryAppendAll (content : List Char)
    (entries : List (List Char × List Char)) : List Char :=
  match entries with
  | [] => content
  | (ts, s) :: rest => fileHistoryAppendAll (fileHistoryAppend content ts s) rest

/-- The three kinds of lines a record is made of, as written by `append`. -/
def recLines (ts s : List Char) : List (List Char) :=
  ['\n'] :: ('#' :: ' ' :: (ts ++ ['\n']))
    :: (splitNl s).map (fun l => '+' :: (l ++ ['\n']))

end PTK

namespace PTK

/-- Decimal digit characters of a natural number (for Python `'%s' % n`). -/
def natRepr (n : Nat) : List Char := Nat.toDigits 10 n

/-- Decimal representation of a Python integer (for `'%i' % n` and `str(n)`). -/
def intRepr (n : Int) : List Char :=
  if n < 0 then '-' :: natRepr n.natAbs else natRepr n.toNat

/-!
The `Line` edit buffer (`prompt_toolkit/line.py`) is not part of the sources
under verification; only its callers are.  The operations below are therefore
modelled from the spec (sections 3 and 4.2), each as a pure function on a
`LineState`.  Where the spec gives no detail (noted per operation) a simple
reading is chosen; none of the claims under verification depend on those
bodies.
-/

/-- Clipboard type tag (`ClipboardDataType`): character-wise or line-wise. -/
inductive ClipType where
  | characters
  | lines
deriving DecidableEq, Repr

/-- Clipboard contents (`ClipboardData`): a string and its type. -/
structure ClipboardData where
  text : List Char
  dtype : ClipType
deriving DecidableEq, Repr

/-- `ClipboardData(text)` with the type argument defaulted, as at most call
sites in `inputstream_handler.py`. -/
def mkClip (text : List Char) : ClipboardData := ⟨text, ClipType.characters⟩

/-- Modelled from the spec: the mutable edit-buffer state of `Line`
(text, cursor, clipboard, undo stack, arg-prompt text); `editorCalls` records
invocations of the external `open_in_editor` collaborator. -/
structure LineState where
  text : List Char
  cursor : Nat
  clipboard : ClipboardData
  undoStack : List (List Char × Nat)
  argPrompt : List Char
  editorCalls : Nat
deriving DecidableEq, Repr

/-- A fresh line buffer. -/
def LineState.initial : LineState := ⟨[], 0, mkClip [], [], [], 0⟩

namespace LineState

/-- Column of the cursor inside its line (chars since the previous newline). -/
def curCol (l : LineState) : Nat :=
  (((l.text.take l.cursor).reverse).takeWhile (· ≠ '\n')).length

/-- Index of the first character of the cursor's line. -/
def lineStart (l : LineState) : Nat := l.cursor - l.curCol

/-- Index just past the last character of the cursor's line. -/
def lineEnd (l : LineState) : Nat :=
  l.cursor + ((l.text.drop l.cursor).takeWhile (· ≠ '\n')).length

/-- Modelled from the spec: `cursor_right` moves one position right, clipped
to the end of the text. -/
def cursor_right (l : LineState) : LineState :=
  { l with cursor := min (l.cursor + 1) l.text.length }

/-- Modelled from the spec: `cursor_left` moves one position left, clipped
to the start. -/
def cursor_left (l : LineState) : LineState :=
  { l with cursor := l.cursor - 1 }

/-- Modelled from the spec: `cursor_to_end_of_line` moves to just before the
next newline (or the end of the text). -/
def cursor_to_end_of_line (l : LineState) : LineState :=
  { l with cursor := l.lineEnd }

/-- Modelled from the spec: `cursor_to_start_of_line(after_whitespace)` moves
to the start of the current line, optionally past its leading spaces/tabs. -/
def cursor_to_start_of_line (l : LineState) (afterWs : Bool) : LineState :=
  let st := l.lineStart
  if afterWs then
    { l with cursor :=
        st + ((l.text.drop st).takeWhile (fun c => c = ' ' ∨ c = '\t')).length }
  else { l with cursor := st }

/-- Modelled from the spec: word = maximal run of non-whitespace; move to the
start of the previous word. -/
def cursor_word_back (l : LineState) : LineState :=
  let r := (l.text.take l.cursor).reverse
  let sk := (r.takeWhile (fun c => c.isWhitespace)).length
  let wd := ((r.drop sk).takeWhile (fun c => ¬ c.isWhitespace)).length
  { l with cursor := l.cursor - sk - wd }

/-- Modelled from the spec: move to the start of the next word. -/
def cursor_word_forward (l : LineState) : LineState :=
  let a := l.text.drop l.cursor
  let wd := (a.takeWhile (fun c => ¬ c.isWhitespace)).length
  let sk := ((a.drop wd).takeWhile (fun c => c.isWhitespace)).length
  { l with cursor := min (l.cursor + wd + sk) l.text.length }

/-- Modelled from the spec: move to the end of the current (or next) word. -/
def cursor_to_end_of_word (l : LineState) : LineState :=
  let a := l.text.drop l.cursor
  let sk := (a.takeWhile (fun c => c.isWhitespace)).length
  let wd := ((a.drop sk).takeWhile (fun c => ¬ c.isWhitespace)).length
  { l with cursor := min (l.cursor + sk + wd) l.text.length }

/-- Modelled from the spec: `delete()` removes the character at the cursor and
returns the removed substring (empty at the end of the text). -/
def delete (l : LineState) : LineState × List Char :=
  if l.cursor < l.text.length then
    ({ l with text := l.text.eraseIdx l.cursor }, [l.text.getD l.cursor ' '])
  else (l, [])

/-- Modelled from the spec: `delete_character_before_cursor`. -/
def delete_character_before_cursor (l : LineState) : LineState :=
  if 0 < l.cursor then
    { l with text := l.text.eraseIdx (l.cursor - 1), cursor := l.cursor - 1 }
  else l

/-- Modelled from the spec: `delete_until_end_of_line` removes from the cursor
to the end of the current line and returns the removed text. -/
def delete_until_end_of_line (l : LineState) : LineState × List Char :=
  let n := ((l.text.drop l.cursor).takeWhile (· ≠ '\n')).length
  ({ l with text := l.text.take l.cursor ++ l.text.drop (l.cursor + n) },
   (l.text.drop l.cursor).take n)

/-- Modelled from the spec: `delete_word()` removes the word after the cursor
(leading whitespace included) and returns it. -/
def delete_word (l : LineState) : LineState × List Char :=
  let a := l.text.drop l.cursor
  let sk := (a.takeWhile (fun c => c.isWhitespace)).length
  let wd := ((a.drop sk).takeWhile (fun c => ¬ c.isWhitespace)).length
  ({ l with text := l.text.take l.cursor ++ l.text.drop (l.cursor + sk + wd) },
   a.take (sk + wd))

/-- Modelled from the spec: `delete_current_line()` removes the cursor's line
(with its trailing newline when present), returning the removed line. -/
def delete_current_line (l : LineState) : LineState × List Char :=
  let s := l.lineStart
  let e := l.lineEnd
  ({ l with text := l.text.take s ++ l.text.drop (e + 1), cursor := s },
   (l.text.drop s).take (e - s))

/-- Modelled from the spec: `set_clipboard`. -/
def set_clipboard (l : LineState) (d : ClipboardData) : LineState :=
  { l with clipboard := d }

/-- Modelled from the spec: `insert_text(s, overwrite, safe_current_in_undo_buffer)`:
push an undo snapshot when `safe`, then insert `s` at the cursor; with
`overwrite` the following `len s` characters are replaced (clipped). -/
def insert_text (l : LineState) (s : List Char) (overwrite safe : Bool) :
    LineState :=
  let l := if safe then { l with undoStack := (l.text, l.cursor) :: l.undoStack }
           else l
  let tail := if overwrite then l.text.drop (l.cursor + s.length)
              else l.text.drop l.cursor
  { l with text := l.text.take l.cursor ++ s ++ tail,
           cursor := l.cursor + s.length }

/-- Modelled from the spec: `undo()` pops a snapshot and restores it. -/
def undo (l : LineState) : LineState :=
  match l.undoStack with
  | [] => l
  | (t, c) :: rest => { l with text := t, cursor := c, undoStack := rest }

/-- Modelled from the spec: `paste_from_clipboard(before)`: LINES-type data is
inserted as a full line above/below the current line, CHARACTERS-type data at
the cursor. -/
def paste_from_clipboard (l : LineState) (before : Bool) : LineState :=
  match l.clipboard.dtype with
  | ClipType.characters =>
      { l with text := l.text.take l.cursor ++ l.clipboard.text
                        ++ l.text.drop l.cursor,
               cursor := l.cursor + l.clipboard.text.length }
  | ClipType.lines =>
      if before then
        { l with text := l.text.take l.lineStart ++ l.clipboard.text ++ '\n'
                          :: l.text.drop l.lineStart,
                 cursor := l.lineStart }
      else
        { l with text := l.text.take l.lineEnd ++ '\n' :: l.clipboard.text
                          ++ l.text.drop l.lineEnd,
                 cursor := min (l.lineEnd + 1) (l.text.length + 1) }

/-- Modelled from the spec: `auto_down` moves the cursor one line down when a
following line exists (the history interplay of the spec involves the
`History` collaborator and is outside this model). -/
def auto_down (l : LineState) : LineState :=
  let e := l.lineEnd
  if e < l.text.length then
    let nlen := ((l.text.drop (e + 1)).takeWhile (· ≠ '\n')).length
    { l with cursor := e + 1 + min l.curCol nlen }
  else l

/-- Modelled from the spec: `auto_up` moves the cursor one line up when a
previous line exists. -/
def auto_up (l : LineState) : LineState :=
  let s := l.lineStart
  if 0 < s then
    let r := (l.text.take (s - 1)).reverse
    let plen := (r.takeWhile (· ≠ '\n')).length
    { l with cursor := (s - 1 - plen) + min l.curCol plen }
  else l

/-- Modelled from the spec: `join_next_line` (not detailed by the spec);
vi's J joins the next line onto the current one, modelled as replacing the
next newline with a space. -/
def join_next_line (l : LineState) : LineState :=
  let e := l.lineEnd
  if e < l.text.length then { l with text := l.text.set e ' ' } else l

/-- Modelled from the spec: `go_to_character_in_line(ch)` moves to the next
occurrence of `ch` (the source's design note scopes this to the whole
buffer). -/
def go_to_character_in_line (l : LineState) (ch : Char) : LineState :=
  match (l.text.drop (l.cursor + 1)).findIdx? (· = ch) with
  | some i => { l with cursor := l.cursor + 1 + i }
  | none => l

end LineState

/-- Scan for the partner of bracket `opn` (its match being `cls`), tracking
nesting depth; returns the offset of the match. -/
def bracketScanStep : List Char → Char → Char → Nat → Nat → Option Nat
  | [], _, _, _, _ => none
  | c :: rest, opn, cls, depth, i =>
    if c = cls then
      if depth = 0 then some i
      else bracketScanStep rest opn cls (depth - 1) (i + 1)
    else if c = opn then bracketScanStep rest opn cls (depth + 1) (i + 1)
    else bracketScanStep rest opn cls depth (i + 1)

namespace LineState

/-- Modelled from the spec: `go_to_matching_bracket` moves to the bracket
matching the one under the cursor, if any. -/
def go_to_matching_bracket (l : LineState) : LineState :=
  match l.text.getD l.cursor ' ' with
  | '(' =>
      match bracketScanStep (l.text.drop (l.cursor + 1)) '(' ')' 0 0 with
      | some i => { l with cursor := l.cursor + 1 + i }
      | none => l
  | '[' =>
      match bracketScanStep (l.text.drop (l.cursor + 1)) '[' ']' 0 0 with
      | some i => { l with cursor := l.cursor + 1 + i }
      | none => l
  | ')' =>
      match bracketScanStep ((l.text.take l.cursor).reverse) ')' '(' 0 0 with
      | some i => { l with cursor := l.cursor - 1 - i }
      | none => l
  | ']' =>
      match bracketScanStep ((l.text.take l.cursor).reverse) ']' '[' 0 0 with
      | some i => { l with cursor := l.cursor - 1 - i }
      | none => l
  | _ => l

/-- Modelled from the spec: `insert_line_above` opens an empty line above the
current one and puts the cursor on it. -/
def insert_line_above (l : LineState) : LineState :=
  let s := l.lineStart
  { l with text := l.text.take s ++ '\n' :: l.text.drop s, cursor := s }

/-- Modelled from the spec: `insert_line_below` opens an empty line below the
current one and puts the cursor on it. -/
def insert_line_below (l : LineState) : LineState :=
  let e := l.lineEnd
  { l with text := l.text.take e ++ '\n' :: l.text.drop e, cursor := e + 1 }

/-- Modelled from the spec: `open_in_editor` suspends into the external
editor; the model records the call. -/
def open_in_editor (l : LineState) : LineState :=
  { l with editorCalls := l.editorCalls + 1 }

/-- Modelled from the spec: `set_arg_prompt` stores the arg-prompt text. -/
def set_arg_prompt (l : LineState) (t : List Char) : LineState :=
  { l with argPrompt := t }

/-- `document.lines`: the text split on newlines. -/
def docLines (l : LineState) : List (List Char) := splitNl l.text

/-- `document.cursor_position_row`: newlines before the cursor. -/
def cursorRow (l : LineState) : Nat :=
  ((l.text.take l.cursor).filter (· = '\n')).length

end LineState

/-- Control-flow outcome of dispatching one key to a handler: either the
mutated line, or one of the `Exit` / `Abort` / `ReturnInput` signals
(spec section 7). -/
inductive HandlerResult where
  | cont (l : LineState)
  | exitSignal
  | abortSignal
  | returnInput (text : List Char)
deriving DecidableEq, Repr

/-- Modelled from the spec: `Line.exit()` fails with the `Exit` signal
(spec section 4.2; `line.py` is not among the sources). -/
def LineState.exitLine (_ : LineState) : HandlerResult := HandlerResult.exitSignal

/-- `InputStreamHandler.ctrl_d` (`inputstream_handler.py` line 91): calls
`self._line.exit()`, with no condition on the buffer contents.  The Emacs
handler inherits this binding unchanged. -/
def ctrl_d (l : LineState) : HandlerResult := l.exitLine

end PTK

namespace PTK

/-- The `result` computed by `_arg_count_append(current, data)`
(`inputstream_handler.py` lines 805-826): `None` starts a fresh count (`'-'`
starting at `-1`); otherwise the typed digit is appended to the decimal
representation of the current count (`int('%s%s' % (current, data))`). -/
def argCountRaw (current : Option Int) (data : Char) : Int :=
  match current with
  | none => if data = '-' then -1 else (data.toNat - '0'.toNat : Nat)
  | some c => if c < 0 then c * 10 - ((data.toNat - '0'.toNat : Nat) : Int)
              else c * 10 + ((data.toNat - '0'.toNat : Nat) : Int)

/-- The final cap of `_arg_count_append`: a result of at least one million is
discarded. -/
def argCountAppend (current : Option Int) (data : Char) : Option Int :=
  if 1000000 ≤ argCountRaw current data then none
  else some (argCountRaw current data)

/-- Python truthiness of the `_arg_count` field (`None` and `0` are falsy). -/
def argTruthy : Option Int → Bool
  | none => false
  | some v => v ≠ 0

/-- Python `arg_count or 1`, the value handed to a firing Vi handler. -/
def argOr1 : Option Int → Int
  | none => 1
  | some v => if v = 0 then 1 else v

/-- `for i in range(n)` repetition of a state transformer (empty for a
non-positive count). -/
def rep (n : Int) (f : α → α) (x : α) : α := f^[n.toNat] x

/-- `''.join(f() for i in range(n))`: repeat a returning operation, threading
the state and concatenating the returned strings. -/
def repCollect : Nat → (LineState → LineState × List Char) → LineState →
    LineState × List Char
  | 0, _, l => (l, [])
  | n + 1, f, l =>
    let (l', s) := f l
    let (l'', rest) := repCollect n f l'
    (l'', s ++ rest)

/-- `'\n'.join(f() for i in range(n))`: as `repCollect` but keeping the pieces
for a newline-separated join. -/
def repCollectList : Nat → (LineState → LineState × List Char) → LineState →
    LineState × List (List Char)
  | 0, _, l => (l, [])
  | n + 1, f, l =>
    let (l', s) := f l
    let (l'', rest) := repCollectList n f l'
    (l'', s :: rest)

/-- Python `'\n'.join(pieces)`. -/
def joinNl (pieces : List (List Char)) : List Char :=
  List.intercalate ['\n'] pieces

/-- The three Vi modes (`ViMode`). -/
inductive ViMode where
  | navigation
  | insert
  | replace
deriving DecidableEq, Repr

/-- The pending one-character callback installed by `f`, `t` or `r`
(`_one_character_callback`), deeply embedded: each constructor is one of the
three closures of `_get_navigation_mode_handles`, carrying its captured
`arg`. -/
inductive OneCb where
  | fCb (arg : Int)
  | tCb (arg : Int)
  | rCb (arg : Int)
deriving DecidableEq, Repr

/-- The keys of the Vi navigation-mode handler table, in registration order
(`_get_navigation_mode_handles`).  Stacked decorators register one function
under several keys; the interpreter `runHandle` reproduces the shared
bodies. -/
def navKeys : List String :=
  ["a", "A", "b", "B", "C", "c$", "cc", "S", "cw", "ce", "D", "dd", "d$",
   "dw", "e", "E", "f", "F", "G", "h", "H", "i", "I", "j", "J", "k", "l",
   " ", "L", "n", "N", "p", "P", "r", "R", "s", "t", "T", "u", "v", "w",
   "W", "x", "X", "yy", "yw", "^", "0", "$", "%", "+", "-", "\x7b",
   "\x7d", ">>", "<<", "O", "o", "~", "|", "/", "?"]

/-- `self._all_navigation_handles`: the full table; each entry pairs the
still-unconsumed key suffix with the key whose handler it stands for
(initially the key itself). -/
def allHandles : List (String × String) := navKeys.map (fun k => (k, k))

/-- The combined state of a `ViInputStreamHandler` and its `Line`. -/
structure ViSt where
  line : LineState
  mode : ViMode
  argCount : Option Int
  current : List (String × String)
  ocb : Option OneCb
  secondTab : Bool
  lastCall : Option String

/-- A fresh Vi handler over a fresh line (after `_reset`): INSERT mode, full
navigation table, no pending callback. -/
def ViSt.initial : ViSt :=
  ⟨LineState.initial, ViMode.insert, none, allHandles, none, false, none⟩

/-- The `_arg_count` property setter: stores the value and sets the line's
arg prompt to it (empty for a falsy value). -/
def setArg (st : ViSt) (v : Option Int) : ViSt :=
  { st with argCount := v,
            line := st.line.set_arg_prompt
              (match v with
               | some n => if n ≠ 0 then intRepr n else []
               | none => []) }

/-- The body of the handler registered for `key` in
`_get_navigation_mode_handles`, as a function of the `arg` it is called
with. -/
def runHandle (key : String) (arg : Int) (st : ViSt) : ViSt :=
  match key with
  | "a" => { st with mode := ViMode.insert, line := st.line.cursor_right }
  | "A" => { st with mode := ViMode.insert,
                     line := st.line.cursor_to_end_of_line }
  | "b" | "B" => { st with line := rep arg LineState.cursor_word_back st.line }
  | "C" | "c$" =>
      let (l, d) := st.line.delete_until_end_of_line
      { st with line := l.set_clipboard (mkClip d), mode := ViMode.insert }
  | "cc" | "S" => st
  | "cw" | "ce" =>
      let (l, d) := repCollect arg.toNat LineState.delete_word st.line
      { st with line := l.set_clipboard (mkClip d), mode := ViMode.insert }
  | "D" =>
      let (l, d) := st.line.delete_until_end_of_line
      { st with line := l.set_clipboard (mkClip d) }
  | "dd" =>
      let (l, ds) := repCollectList arg.toNat LineState.delete_current_line st.line
      { st with line := l.set_clipboard ⟨joinNl ds, ClipType.lines⟩ }
  | "d$" =>
      let (l, d) := st.line.delete_until_end_of_line
      { st with line := l.set_clipboard (mkClip d) }
  | "dw" =>
      let (l, d) := repCollect arg.toNat LineState.delete_word st.line
      { st with line := l.set_clipboard (mkClip d) }
  | "e" | "E" => { st with line := st.line.cursor_to_end_of_word }
  | "f" => { st with ocb := some (OneCb.fCb arg) }
  | "F" => st
  | "G" => st
  | "h" => { st with line := rep arg LineState.cursor_left st.line }
  | "H" => { st with line := { st.line with cursor := 0 } }
  | "i" => { st with mode := ViMode.insert }
  | "I" => { st with mode := ViMode.insert,
                     line := st.line.cursor_to_start_of_line false }
  | "j" => { st with line := rep arg LineState.auto_down st.line }
  | "J" => { st with line := st.line.join_next_line }
  | "k" => { st with line := rep arg LineState.auto_up st.line }
  | "l" | " " => { st with line := rep arg LineState.cursor_right st.line }
  | "L" => { st with line := { st.line with cursor := st.line.text.length } }
  | "n" | "N" => st
  | "p" => { st with line := rep arg (LineState.paste_from_clipboard · false) st.line }
  | "P" => { st with line := rep arg (LineState.paste_from_clipboard · true) st.line }
  | "r" => { st with ocb := some (OneCb.rCb arg) }
  | "R" => { st with mode := ViMode.replace }
  | "s" =>
      let (l, d) := repCollect arg.toNat LineState.delete st.line
      { st with line := l.set_clipboard (mkClip d), mode := ViMode.insert }
  | "t" => { st with ocb := some (OneCb.tCb arg) }
  | "T" => st
  | "u" => { st with line := rep arg LineState.undo st.line }
  | "v" => { st with line := st.line.open_in_editor }
  | "w" | "W" => { st with line := rep arg LineState.cursor_word_forward st.line }
  | "x" =>
      let (l, d) := repCollect arg.toNat LineState.delete st.line
      { st with line := l.set_clipboard (mkClip d) }
  | "X" => { st with line := st.line.delete_character_before_cursor }
  | "yy" =>
      let row := st.line.cursorRow
      let text := joinNl ((st.line.docLines.drop row).take arg.toNat)
      { st with line := st.line.set_clipboard ⟨text, ClipType.lines⟩ }
  | "yw" => st
  | "^" => { st with line := st.line.cursor_to_start_of_line true }
  | "0" => { st with line := st.line.cursor_to_start_of_line false }
  | "$" => { st with line := st.line.cursor_to_end_of_line }
  | "%" => { st with line := st.line.go_to_matching_bracket }
  | "O" => { st with line := st.line.insert_line_above, mode := ViMode.insert }
  | "o" => { st with line := st.line.insert_line_below, mode := ViMode.insert }
  | "~" =>
      match st.line.text.get? st.line.cursor with
      | some c =>
          if c ≠ '\n' then
            let c' := if c.isLower then c.toUpper else c.toLower
            { st with line := st.line.insert_text [c'] true true }
          else st
      | none => { st with line := st.line.insert_text [] true true }
  | _ => st

/-- Run a pending one-character callback on the character that follows it:
the bodies of the `cb` closures of the `f`, `t` and `r` handlers. -/
def runCb (cb : OneCb) (ch : Char) (st : ViSt) : ViSt :=
  match cb with
  | OneCb.fCb arg =>
      { st with line := rep arg (LineState.go_to_character_in_line · ch) st.line }
  | OneCb.tCb arg =>
      { st with line :=
          (rep arg (LineState.go_to_character_in_line · ch) st.line).cursor_left }
  | OneCb.rCb arg =>
      { st with line :=
          st.line.insert_text (List.replicate arg.toNat ch) true true }

end PTK

namespace PTK

/-- `InputStreamHandler.insert_char` (the base class, lines 209-217): insert
the typed character, pushing an undo snapshot only when the previous call was
not also `insert_char` (undo coalescence). -/
def baseInsertChar (st : ViSt) (data : Char) (overwrite : Bool) : ViSt :=
  let safe := st.lastCall ≠ some "insert_char"
  { st with line := st.line.insert_text [data] overwrite safe }

/-- `ViInputStreamHandler.insert_char` (lines 764-802): a pending
one-character callback consumes the character and is cleared; otherwise, in
navigation mode, digits accumulate the numeric argument, an exact key match
fires its handler with `arg_count or 1` and restores the full table, a
strict-prefix match narrows the table to the matching suffixes, and anything
else resets to the full table; in replace/insert mode the character is
inserted (with overwrite in replace mode). -/
def viInsertChar (st : ViSt) (data : Char) : ViSt :=
  match st.ocb with
  | some cb => { runCb cb data st with ocb := none }
  | none =>
    if st.mode = ViMode.navigation then
      if data ∈ "123456789".data ∨ (argTruthy st.argCount ∧ data = '0') then
        setArg st (argCountAppend st.argCount data)
      else
        match st.current.find? (fun p => p.1 = String.singleton data) with
        | some p =>
            let ac := st.argCount
            let st := setArg st none
            let st := runHandle p.2 (argOr1 ac) st
            { st with current := allHandles }
        | none =>
            if st.current.any (fun p => p.1.data.head? = some data) then
              { st with current := st.current.filterMap (fun p =>
                  if p.1.data.head? = some data then some (p.1.drop 1, p.2)
                  else none) }
            else { st with current := allHandles }
    else if st.mode = ViMode.replace then baseInsertChar st data true
    else if st.mode = ViMode.insert then baseInsertChar st data false
    else st

/-- `ViInputStreamHandler.escape` (lines 408-414): go to navigation mode,
restore the full handler table and reset the numeric argument. -/
def viEscapeRaw (st : ViSt) : ViSt :=
  setArg { st with mode := ViMode.navigation, current := allHandles } none

/-- Dispatching one typed character through `__call__` (lines 56-72):
`insert_char` is not `ctrl_i`, so the second-tab flag is cleared, the
`insert_char` method runs, and the last-call name is recorded. -/
def viCallInsertChar (st : ViSt) (data : Char) : ViSt :=
  { viInsertChar { st with secondTab := false } data
    with lastCall := some "insert_char" }

/-- Dispatching the escape key through `__call__`. -/
def viCallEscape (st : ViSt) : ViSt :=
  { viEscapeRaw { st with secondTab := false } with lastCall := some "escape" }

end PTK

namespace PTK

/-- Style-token classes (Pygments `Token` values) as far as the core
distinguishes them: `Token.Error` (bracket mismatches) and `Token.Aborted`
(graying) are special-cased by the sources; everything else is opaque. -/
inductive Tok where
  | plain
  | errorTok
  | abortedTok
  | other (n : Nat)
deriving DecidableEq, Repr

/-- A concrete style as stored on a screen cell: the `{color, bgcolor, bold,
underline}` dictionary built by the style adapter or by
`highlight_character`. -/
structure StyleV where
  color : Option (List Char)
  bgcolor : Option (List Char)
  bold : Bool
  underline : Bool
deriving DecidableEq, Repr

/-- External collaborators of the renderer: `wcwidth` (the vendored width
table), the style adapter's `style_for_token` (`none` models the `KeyError`
path), and the Pygments escape-sequence wrapping used by `Char.output`. -/
structure ScreenParams where
  w : Char → Int
  styleFor : Tok → Option StyleV
  styleWrap : StyleV → List Char → List Char

/-- A screen cell (`Char` in `renderer.py`): a glyph and an optional style. -/
structure CellC where
  ch : Char
  style : Option StyleV
deriving DecidableEq, Repr

/-- `Char.output`: the terminal bytes of one cell (escape-wrapped when
styled). -/
def cellOutput (P : ScreenParams) (c : CellC) : List Char :=
  match c.style with
  | some st => P.styleWrap st [c.ch]
  | none => [c.ch]

/-- `Char.width`: `max(1, wcwidth(char))`. -/
def cellWidth (P : ScreenParams) (c : CellC) : Int := max 1 (P.w c.ch)

/-- The state of a `Screen`: the written cells (later writes shadow earlier
ones at the same position), the outer rows materialised in the row
`defaultdict`, the input-to-screen cursor mappings, the write position, the
logical input position, and the construction parameters.  `slpFunc` is the
second-line-prefix hook (the constant token list the renderer installs). -/
structure ScreenState where
  buffer : List ((Nat × Int) × CellC)
  createdRows : List Nat
  mappings : List ((Int × Int) × (Nat × Int))
  x : Int
  y : Nat
  input_row : Nat
  input_col : Nat
  columns : Int
  grayed : Bool
  slpFunc : Option (List (Tok × List Char))

/-- `Screen.__init__`. -/
def ScreenState.init (columns : Int) (grayed : Bool) : ScreenState :=
  ⟨[], [], [], 0, 0, 0, 0, columns, grayed, none⟩

/-- `Screen.save_input_pos`: record the screen position of the current
logical input position. -/
def ScreenState.save_input_pos (s : ScreenState) : ScreenState :=
  { s with mappings :=
      (((s.input_row : Int), (s.input_col : Int)), (s.y, s.x)) :: s.mappings }

/-- The body of `Screen.write_char` (lines 142-195) short of the
second-line-prefix hook: wrap to the next row when the glyph would reach or
cross the right margin, record the input mapping, gray the token if needed,
then either advance a row (newline) or store the cell and advance the
column. -/
def wcCore (P : ScreenParams) (s : ScreenState) (ch : Char) (tok : Tok)
    (is_input : Bool) : ScreenState :=
  let cw := P.w ch
  let s := if s.columns ≤ s.x + cw then { s with y := s.y + 1, x := 0 } else s
  let s := if is_input then s.save_input_pos else s
  let tok := if s.grayed then Tok.abortedTok else tok
  if ch = '\n' then
    let s := { s with y := s.y + 1, x := 0 }
    if is_input then { s with input_row := s.input_row + 1, input_col := 0 }
    else s
  else
    let cell : CellC := ⟨ch, P.styleFor tok⟩
    let s := { s with buffer := ((s.y, s.x), cell) :: s.buffer,
                      createdRows := s.y :: s.createdRows }
    let s := if is_input then { s with input_col := s.input_col + 1 } else s
    if s.columns ≤ s.x + cw then { s with y := s.y + 1, x := 0 }
    else { s with x := s.x + cw }

/-- `write_highlighted` restricted to the second-line-prefix call, which runs
with `is_input=False` and therefore cannot re-enter the prefix hook: a plain
fold of the `write_char` body. -/
def writeHlNoPfx (P : ScreenParams) (s : ScreenState)
    (toks : List (Tok × List Char)) (is_input : Bool) : ScreenState :=
  toks.foldl (fun s tt => tt.2.foldl (fun s ch => wcCore P s ch tt.1 is_input) s) s

/-- `Screen.write_char`: the body above plus the hook writing the
second-line prefix (as non-input cells) after an input newline. -/
def ScreenState.write_char (P : ScreenParams) (s : ScreenState) (ch : Char)
    (tok : Tok) (is_input : Bool) : ScreenState :=
  let s' := wcCore P s ch tok is_input
  if ch = '\n' ∧ is_input then
    match s'.slpFunc with
    | some toks => writeHlNoPfx P s' toks false
    | none => s'
  else s'

/-- `Screen.write_highlighted`: write each character of each `(token, text)`
pair. -/
def ScreenState.write_highlighted (P : ScreenParams) (s : ScreenState)
    (toks : List (Tok × List Char)) (is_input : Bool) : ScreenState :=
  toks.foldl
    (fun s tt => tt.2.foldl (fun s ch => s.write_char P ch tt.1 is_input) s) s

/-- `Screen.highlight_character` (lines 210-230): when the input position has
been drawn, restyle its cell (overriding `bgcolor`/`color` when given).
Reading the row dict materialises the outer row key. -/
def ScreenState.highlight_character (s : ScreenState) (row col : Int)
    (bgcolor color : Option (List Char)) : ScreenState :=
  match s.mappings.find? (fun e => e.1 = (row, col)) with
  | none => s
  | some e =>
    let sy := e.2.1
    let sx := e.2.2
    let s := { s with createdRows := sy :: s.createdRows }
    match s.buffer.find? (fun b => b.1 = (sy, sx)) with
    | none => s
    | some b =>
      let newStyle : StyleV :=
        match b.2.style with
        | some st =>
          { st with
            bgcolor := match bgcolor with | some bg => some bg | none => st.bgcolor,
            color := match color with | some cl => some cl | none => st.color }
        | none => ⟨color, bgcolor, false, false⟩
      { s with buffer := ((sy, sx), { b.2 with style := some newStyle }) :: s.buffer }

/-- `Screen.highlight_line` (lines 205-208): highlight every drawn input cell
of the given input row (iterating the mapping entries; repeated entries are
harmless since the restyle is idempotent). -/
def ScreenState.highlight_line (s : ScreenState) (row : Int) (bgcolor : List Char) :
    ScreenState :=
  s.mappings.foldl
    (fun s e =>
      if e.1.1 = row then s.highlight_character e.1.1 e.1.2 (some bgcolor) none
      else s) s

/-- The `while c < cols` serialisation loop of `Screen.output`: emit the cell
at column `c` (a default blank for holes) and step by its width.  The loop is
driven by a fuel of `cols - c` steps, which always suffices since every cell
width is at least 1. -/
def rowCellsAux (P : ScreenParams) (line : List (Int × CellC)) (cols : Int) :
    Int → Nat → List Char
  | _, 0 => []
  | c, fuel + 1 =>
    if c < cols then
      let cell :=
        ((line.find? (fun e => e.1 = c)).map (fun e => e.2)).getD ⟨' ', none⟩
      cellOutput P cell ++ rowCellsAux P line cols (c + cellWidth P cell) fuel
    else []

/-- The serialisation loop started at column `c`. -/
def rowCells (P : ScreenParams) (line : List (Int × CellC)) (cols c : Int) :
    List Char :=
  rowCellsAux P line cols c (cols - c).toNat

/-- One row of `Screen.output`: nothing for an unwritten row, otherwise the
loop above up to one past the greatest written column. -/
def ScreenState.rowOutput (P : ScreenParams) (s : ScreenState) (r : Nat) :
    List Char :=
  let line := s.buffer.filterMap
    (fun e => if e.1.1 = r then some (e.1.2, e.2) else none)
  match (line.map Prod.fst).max? with
  | none => []
  | some m => rowCells P line (m + 1) 0

/-- `CRLF`. -/
def CRLF : List Char := ['\r', '\n']

/-- The row loop of `Screen.output`: each row's serialisation, with a `CRLF`
after every row but the last. -/
def serRows (rowFn : Nat → List Char) : List Nat → List Char
  | [] => []
  | [r] => rowFn r
  | r :: r2 :: rest => rowFn r ++ CRLF ++ serRows rowFn (r2 :: rest)

/-- `Screen.output` (lines 232-250): `max(self._buffer.keys()) + 1` rows are
serialised; on a screen whose buffer never materialised a row the `max` of an
empty sequence raises `ValueError`, modelled as `none`. -/
def ScreenState.output (P : ScreenParams) (s : ScreenState) : Option (List Char) :=
  match s.createdRows.max? with
  | none => none
  | some m => some (serRows (s.rowOutput P) (List.range (m + 1)))

/-- `ERASE_DOWN`. -/
def ERASE_DOWN : List Char := ['\x1b', '[', 'J']

/-- `CURSOR_UP(amount)` (`'\x1b[A'` abbreviated when the amount is 1). -/
def cursorUp (n : Int) : List Char :=
  if n = 1 then ['\x1b', '[', 'A'] else '\x1b' :: '[' :: (intRepr n ++ ['A'])

/-- `CURSOR_FORWARD(amount)`. -/
def cursorForward (n : Int) : List Char :=
  if n = 1 then ['\x1b', '[', 'C'] else '\x1b' :: '[' :: (intRepr n ++ ['C'])

/-- `CURSOR_BACKWARD(amount)`. -/
def cursorBackward (n : Int) : List Char :=
  if n = 1 then ['\x1b', '[', 'D'] else '\x1b' :: '[' :: (intRepr n ++ ['D'])

/-- One tick's inputs to the renderer (`RenderContext` plus the values the
renderer pulls from it): the prompt/prefix/code/help token streams, the
accept/abort flags, the highlight regions, and the code document's cursor
coordinates. -/
structure RenderContext where
  promptTokens : List (Tok × List Char)
  slpTokens : List (Tok × List Char)
  codeTokens : List (Tok × List Char)
  helpTokens : List (Tok × List Char)
  accept : Bool
  abort : Bool
  highlightRegions : List ((Nat × Nat) × (Nat × Nat))
  cursorRow : Nat
  cursorCol : Nat

/-- `Renderer._get_new_screen` (lines 269-301): build the tick's screen:
prompt (non-input), install the second-line prefix, code tokens, save the
final input position, drop the prefix, help tokens unless accepting or
aborting, optional current-line highlight (`hcl` is the class flag
`highlight_current_line`), then the highlight regions. -/
def getNewScreen (P : ScreenParams) (columns : Int) (hcl : Bool)
    (ctx : RenderContext) : ScreenState :=
  let s := ScreenState.init columns ctx.abort
  let s := s.write_highlighted P ctx.promptTokens false
  let s := { s with slpFunc := some ctx.slpTokens }
  let s := s.write_highlighted P ctx.codeTokens true
  let s := s.save_input_pos
  let s := { s with slpFunc := none }
  let s := if ¬ (ctx.accept ∨ ctx.abort) ∧ ctx.helpTokens ≠ [] then
             s.write_highlighted P ctx.helpTokens true
           else s
  let s := if hcl ∧ ¬ (ctx.accept ∨ ctx.abort) then
             s.highlight_line (ctx.cursorRow : Int)
               ['f', '8', 'f', '8', 'f', '8']
           else s
  ctx.highlightRegions.foldl
    (fun s reg =>
      (List.range' reg.1.2 (reg.2.2 - reg.1.2)).foldl
        (fun s i =>
          s.highlight_character ((reg.1.1 : Int) - 1) (i : Int)
            (some ['4', '4', '4', '4', '4', '4'])
            (some ['e', 'e', 'e', 'e', 'e', 'e'])) s) s

/-- The renderer's inter-tick state: `_lines_in_use` and `_cursor_line`. -/
structure RState where
  linesInUse : Nat
  cursorLine : Nat
deriving DecidableEq, Repr

/-- The unconditional cursor-reset prologue of `_render_to_str`:
`CURSOR_UP(cursor_line)` when the previous cursor line is non-zero, then a
carriage return and `ERASE_DOWN`. -/
def prologue (st : RState) : List Char :=
  (if st.cursorLine ≠ 0 then cursorUp (st.cursorLine : Int) else [])
    ++ '\r' :: ERASE_DOWN

/-- `Renderer._render_to_str` (lines 303-339): prologue, the new screen's
full serialisation, then either a `CRLF` (accept/abort, resetting the
counters) or the cursor motion from the write position back to the input
cursor's screen position.  `none` models the exceptions `Screen.output`
(empty buffer) or the mapping lookup can raise. -/
def renderToStr (P : ScreenParams) (columns : Int) (hcl : Bool)
    (ctx : RenderContext) (st : RState) : Option (List Char × RState) :=
  let screen := getNewScreen P columns hcl ctx
  match ScreenState.output P screen with
  | none => none
  | some so =>
    if ctx.accept ∨ ctx.abort then
      some (prologue st ++ so ++ CRLF, ⟨0, 0⟩)
    else
      match screen.mappings.find?
          (fun e => e.1 = ((ctx.cursorRow : Int), (ctx.cursorCol : Int))) with
      | none => none
      | some e =>
        let cy := e.2.1
        let cx := e.2.2
        let dy : Int := (screen.y : Int) - (cy : Int)
        let m1 := if dy ≠ 0 then cursorUp dy else []
        let m2 := if cx < screen.x then cursorBackward (screen.x - cx) else []
        let m3 := if screen.x < cx then cursorForward (cx - screen.x) else []
        some (prologue st ++ so ++ m1 ++ m2 ++ m3, ⟨screen.y, cy⟩)

end PTK

namespace PTK

/-- Python's substring test `needle in hay` (for `str`), as used on token
texts by the bracket pass; the empty needle is contained in everything. -/
def isSubstr (needle : List Char) : List Char → Bool
  | [] => needle.isEmpty
  | c :: rest => needle.isPrefixOf (c :: rest) || isSubstr needle rest

/-- One iteration of the bracket-matching loop of `PythonCode._get_tokens`
(`contrib/repl.py` lines 384-399), over the mutable token array and the stack
of indices of open brackets: an opening bracket is pushed; a closing bracket
matching the text at the top index pops it; a non-matching closing bracket is
restyled `Token.Error` in place. -/
def bracketStep (acc : List (Tok × List Char) × List Nat) (index : Nat) :
    List (Tok × List Char) × List Nat :=
  let result := acc.1
  let stack := acc.2
  let text := (result.getD index (Tok.plain, [])).2
  let top := match stack with
             | [] => ([] : List Char)
             | s :: _ => (result.getD s (Tok.plain, [])).2
  if isSubstr text "(\x7b[]\x7d)".data then
    if isSubstr text "(\x7b[".data then (result, index :: stack)
    else if (text = [')'] ∧ top = ['(']) ∨
            (text = ['\x7d'] ∧ top = ['\x7b']) ∨
            (text = [']'] ∧ top = ['[']) then
      (result, stack.tail)
    else (result.set index (Tok.errorTok, text), stack)
  else (result, stack)

/-- `PythonCode._get_tokens` (lines 377-405) applied to the token list of the
base lexer: run the bracket pass over every index, then restyle the
still-open brackets left on the stack as `Token.Error`. -/
def pythonCodeTokens (base : List (Tok × List Char)) : List (Tok × List Char) :=
  let scan := (List.range base.length).foldl bracketStep (base, [])
  scan.2.foldl
    (fun r index => r.set index (Tok.errorTok, (r.getD index (Tok.plain, [])).2))
    scan.1

/-- The zero-based text columns carrying an error-styled character in a token
stream (each token's text occupying consecutive columns). -/
def errorColumns (toks : List (Tok × List Char)) : List Nat :=
  (toks.foldl
    (fun (acc : Nat × List Nat) tt =>
      (acc.1 + tt.2.length,
       if tt.1 = Tok.errorTok then
         acc.2 ++ (List.range tt.2.length).map (acc.1 + ·)
       else acc.2))
    (0, [])).2

/-- The base lexer's token stream for the input `"([)]"`: the Python lexer
(an external collaborator) emits each punctuation character as its own
token. -/
def baseBrackets : List (Tok × List Char) :=
  [(Tok.plain, ['(']), (Tok.plain, ['[']), (Tok.plain, [')']),
   (Tok.plain, [']'])]

/-- The host-adapter state of `PythonLine` over the base line: the
`paste_mode` and `multiline` flags of `contrib/repl.py`. -/
structure PythonLineSt where
  line : LineState
  pasteMode : Bool
  multiline : Bool
deriving DecidableEq, Repr

/-- Modelled from the spec: the base `Line.set_text` (in the missing
`line.py`) assigns the text, snapshotting the previous state in the undo
stack when `safe_current_in_undo_buffer` is set. -/
def LineState.set_text (l : LineState) (value : List Char) (safe : Bool) :
    LineState :=
  let l := if safe then { l with undoStack := (l.text, l.cursor) :: l.undoStack }
           else l
  { l with text := value }

/-- `PythonLine.set_text` (`contrib/repl.py` lines 164-166): delegate to the
base class, then set `multiline` to whether the new value contains a
newline. -/
def pythonLineSetText (st : PythonLineSt) (value : List Char) (safe : Bool) :
    PythonLineSt :=
  { st with line := st.line.set_text value safe,
            multiline := value.contains '\n' }

end PTK

namespace PTK

theorem splitNl_ne_nil (s : List Char) : splitNl s ≠ [] := by
  cases s with
  | nil => simp [splitNl]
  | cons c rest =>
    by_cases hc : c = '\n'
    · simp [splitNl, hc]
    · cases h : splitNl rest with
      | nil => simp [splitNl, hc, h]
      | cons p ps => simp [splitNl, hc, h]

theorem splitNl_no_newline (s : List Char) : ∀ l ∈ splitNl s, '\n' ∉ l := by
  induction s with
  | nil => simp [splitNl]
  | cons c rest ih =>
    by_cases hc : c = '\n'
    · subst hc
      simp only [splitNl, if_pos rfl]
      intro l hl
      rcases List.mem_cons.mp hl with h | h
      · simp [h]
      · exact ih l h
    · cases h : splitNl rest with
      | nil => exact absurd h (splitNl_ne_nil rest)
      | cons p ps =>
        have e : splitNl (c :: rest) = (c :: p) :: ps := by
          simp [splitNl, hc, h]
        rw [e]
        intro l hl
        rcases List.mem_cons.mp hl with h1 | h1
        · subst h1
          intro hmem
          rcases List.mem_cons.mp hmem with h2 | h2
          · exact hc h2.symm
          · exact ih p (by rw [h]; exact List.mem_cons_self p ps) h2
        · exact ih l (by rw [h]; exact List.mem_cons_of_mem p h1)

theorem flatten_splitNl (s : List Char) :
    ((splitNl s).map (fun l => l ++ ['\n'])).flatten = s ++ ['\n'] := by
  induction s with
  | nil => simp [splitNl]
  | cons c rest ih =>
    by_cases hc : c = '\n'
    · subst hc
      have e : splitNl ('\n' :: rest) = [] :: splitNl rest := by
        simp [splitNl]
      rw [e]
      simp [ih]
    · cases h : splitNl rest with
      | nil => exact absurd h (splitNl_ne_nil rest)
      | cons p ps =>
        have e : splitNl (c :: rest) = (c :: p) :: ps := by
          simp [splitNl, hc, h]
        rw [e]
        rw [h] at ih
        simp only [List.map_cons, List.flatten_cons, List.cons_append,
          List.append_assoc] at ih ⊢
        rw [ih]

theorem fileLines_cons_nl (t : List Char) :
    fileLines ('\n' :: t) = ['\n'] :: fileLines t := by
  simp [fileLines]

theorem fileLines_cons_ne (c : Char) (t : List Char) (hc : c ≠ '\n')
    (q : List Char) (qs : List (List Char)) (h : fileLines t = q :: qs) :
    fileLines (c :: t) = (c :: q) :: qs := by
  simp [fileLines, hc, h]

theorem fileLines_ne_nil (l : List Char) (h : l ≠ []) : fileLines l ≠ [] := by
  cases l with
  | nil => exact absurd rfl h
  | cons c rest =>
    by_cases hc : c = '\n'
    · simp [fileLines, hc]
    · cases hr : fileLines rest with
      | nil => simp [fileLines, hc, hr]
      | cons p ps => simp [fileLines, hc, hr]

theorem fileLines_append (a b : List Char) (ha : a.getLast? = some '\n') :
    fileLines (a ++ b) = fileLines a ++ fileLines b := by
  induction a with
  | nil => simp at ha
  | cons c rest ih =>
    cases rest with
    | nil =>
      have hc : c = '\n' := by simpa using ha
      subst hc
      show fileLines ('\n' :: b) = _
      rw [fileLines_cons_nl, fileLines_cons_nl]
      simp [fileLines]
    | cons r rs =>
      have ha' : (r :: rs).getLast? = some '\n' := by
        rwa [List.getLast?_cons_cons] at ha
      have ih' := ih ha'
      by_cases hc : c = '\n'
      · subst hc
        show fileLines ('\n' :: ((r :: rs) ++ b)) = _
        rw [fileLines_cons_nl, ih', fileLines_cons_nl]
        rfl
      · obtain ⟨q, qs, hq⟩ :=
          List.exists_cons_of_ne_nil (fileLines_ne_nil (r :: rs) (by simp))
        have h1 : fileLines ((r :: rs) ++ b) = q :: (qs ++ fileLines b) := by
          rw [ih', hq]; rfl
        show fileLines (c :: ((r :: rs) ++ b)) = _
        rw [fileLines_cons_ne c _ hc _ _ h1, fileLines_cons_ne c _ hc _ _ hq]
        rfl

theorem fileLines_of_terminated (l : List Char) (h : '\n' ∉ l) :
    fileLines (l ++ ['\n']) = [l ++ ['\n']] := by
  induction l with
  | nil => simp [fileLines]
  | cons c rest ih =>
    have hc : c ≠ '\n' := fun e => h (by simp [e])
    have hrest : '\n' ∉ rest := fun e => h (List.mem_cons_of_mem c e)
    have e := fileLines_cons_ne c (rest ++ ['\n']) hc (rest ++ ['\n']) []
      (ih hrest)
    show fileLines (c :: (rest ++ ['\n'])) = _
    rw [e]
    rfl

theorem fileLines_flatten (ls : List (List Char))
    (h : ∀ l ∈ ls, ∃ l', l = l' ++ ['\n'] ∧ '\n' ∉ l') :
    fileLines ls.flatten = ls := by
  induction ls with
  | nil => simp [fileLines]
  | cons l rest ih =>
    obtain ⟨l', hl', hno⟩ := h l (List.mem_cons_self l rest)
    have hterm : l.getLast? = some '\n' := by
      rw [hl']; exact List.getLast?_concat _
    rw [List.flatten_cons, fileLines_append l rest.flatten hterm]
    rw [ih (fun x hx => h x (List.mem_cons_of_mem l hx))]
    rw [hl', fileLines_of_terminated l' hno]
    rfl

theorem addRecord_nil (strs : List (List Char)) : addRecord strs [] = strs := by
  simp [addRecord]

theorem loadStep_plus_fold (ls : List (List Char)) :
    ∀ strs pending, (ls.map (fun l => '+' :: l)).foldl loadStep (strs, pending)
      = (strs, pending ++ ls) := by
  induction ls with
  | nil => intro strs pending; simp
  | cons l rest ih =>
    intro strs pending
    have hstep : loadStep (strs, pending) ('+' :: l) = (strs, pending ++ [l]) := by
      simp [loadStep, startsWithPlus]
    simp only [List.map_cons, List.foldl_cons, hstep, ih]
    simp

theorem recLines_fold (ts s : List Char) (strs pending : List (List Char)) :
    (recLines ts s).foldl loadStep (strs, pending)
      = (addRecord strs pending, (splitNl s).map (fun l => l ++ ['\n'])) := by
  have h1 : loadStep (strs, pending) ['\n'] = (addRecord strs pending, []) := by
    simp [loadStep, startsWithPlus]
  have h2 : loadStep (addRecord strs pending, [])
      ('#' :: ' ' :: (ts ++ ['\n'])) = (addRecord strs pending, []) := by
    simp [loadStep, startsWithPlus, addRecord_nil]
  have hmap : (splitNl s).map (fun l => '+' :: (l ++ ['\n']))
      = ((splitNl s).map (fun l => l ++ ['\n'])).map (fun l => '+' :: l) := by
    simp [List.map_map]
  simp only [recLines, List.foldl_cons, h1, h2, hmap,
    loadStep_plus_fold, List.nil_append]

theorem addRecord_split (A : List (List Char)) (s : List Char) :
    addRecord A ((splitNl s).map (fun l => l ++ ['\n'])) = A ++ [s] := by
  have hne : (splitNl s).map (fun l => l ++ ['\n']) ≠ [] := by
    simp [splitNl_ne_nil s]
  simp only [addRecord, if_neg hne, flatten_splitNl, List.dropLast_concat]

theorem load_fold_all (entries : List (List Char × List Char)) :
    ∀ strs pending,
      (let st := ((entries.map (fun p => recLines p.1 p.2)).flatten).foldl
        loadStep (strs, pending)
      addRecord st.1 st.2) = addRecord strs pending ++ entries.map Prod.snd := by
  induction entries with
  | nil => intro strs pending; simp
  | cons e rest ih =>
    intro strs pending
    simp only [List.map_cons, List.flatten_cons, List.foldl_append,
      recLines_fold]
    have := ih (addRecord strs pending) ((splitNl e.2).map (fun l => l ++ ['\n']))
    simp only at this ⊢
    rw [this, addRecord_split]
    simp

theorem fileHistoryAppend_eq (content ts s : List Char) :
    fileHistoryAppend content ts s = content ++ (recLines ts s).flatten := by
  simp [fileHistoryAppend, recLines]

theorem fileHistoryAppendAll_flatten (entries : List (List Char × List Char)) :
    ∀ content, fileHistoryAppendAll content entries
      = content ++ ((entries.map (fun p => recLines p.1 p.2)).map List.flatten).flatten := by
  induction entries with
  | nil => intro content; simp [fileHistoryAppendAll]
  | cons e rest ih =>
    intro content
    show fileHistoryAppendAll (fileHistoryAppend content e.1 e.2) rest = _
    rw [ih, fileHistoryAppend_eq]
    simp [List.append_assoc]

end PTK

namespace PTK

/-- C4: round-trip of file-backed history.  Starting from a fresh
(non-existent, hence empty) file, appending any finite sequence of entries
(each possibly containing newlines) with `FileHistory.append` and then
loading the resulting file with `FileHistory._load` recovers exactly the
appended entries, in order.  The timestamps written in the `#` header lines
are arbitrary newline-free strings. -/
theorem fileHistory_roundtrip (entries : List (List Char × List Char))
    (hts : ∀ p ∈ entries, '\n' ∉ p.1) :
    fileHistoryLoad (fileHistoryAppendAll [] entries)
      = entries.map Prod.snd := by
  rw [fileHistoryAppendAll_flatten, List.nil_append]
  have hflat : ((entries.map (fun p => recLines p.1 p.2)).map List.flatten).flatten
      = ((entries.map (fun p => recLines p.1 p.2)).flatten).flatten := by
    rw [List.flatten_flatten]
  rw [hflat]
  unfold fileHistoryLoad
  have hok : ∀ l ∈ (entries.map (fun p => recLines p.1 p.2)).flatten,
      ∃ l', l = l' ++ ['\n'] ∧ '\n' ∉ l' := by
    intro l hl
    rw [List.mem_flatten] at hl
    obtain ⟨r, hr, hlr⟩ := hl
    rw [List.mem_map] at hr
    obtain ⟨p, hp, hrp⟩ := hr
    subst hrp
    rcases List.mem_cons.mp hlr with h1 | h1
    · exact ⟨[], by simp [h1], by simp⟩
    rcases List.mem_cons.mp h1 with h2 | h2
    · refine ⟨'#' :: ' ' :: p.1, by simp [h2], ?_⟩
      intro hmem
      rcases List.mem_cons.mp hmem with h3 | h3
      · exact absurd h3.symm (by decide)
      rcases List.mem_cons.mp h3 with h4 | h4
      · exact absurd h4.symm (by decide)
      · exact hts p hp h4
    · rw [List.mem_map] at h2
      obtain ⟨q, hq, hql⟩ := h2
      refine ⟨'+' :: q, by simp [← hql], ?_⟩
      intro hmem
      rcases List.mem_cons.mp hmem with h3 | h3
      · exact absurd h3.symm (by decide)
      · exact splitNl_no_newline p.2 q hq h3
  rw [fileLines_flatten _ hok]
  have := load_fold_all entries [] []
  simpa [addRecord] using this

/-- C4 witness: two concrete entries, the first spanning two lines, survive
the file round-trip. -/
theorem fileHistory_roundtrip_witness :
    fileHistoryLoad (fileHistoryAppendAll []
        [("2014-09-01 10:00:00".data, "a\nb".data), ("ts2".data, "x".data)])
      = ["a\nb".data, "x".data] :=
  fileHistory_roundtrip
    [("2014-09-01 10:00:00".data, "a\nb".data), ("ts2".data, "x".data)]
    (by decide)

/-- C1 counterexample: with the non-empty buffer text `"a"`, dispatching
`ctrl_d` raises the `Exit` signal rather than deleting the character after
the cursor, contradicting the claim's non-empty branch. -/
theorem ctrl_d_counterexample :
    ({ LineState.initial with text := ['a'] } : LineState).text ≠ [] ∧
      ctrl_d { LineState.initial with text := ['a'] }
        = HandlerResult.exitSignal := by
  exact ⟨by simp [LineState.initial], rfl⟩

/-- C1 amended: `ctrl_d` calls `Line.exit()` unconditionally (lines 91-92),
so dispatching it raises `Exit` for every buffer state, empty or not; it
never deletes the character after the cursor. -/
theorem ctrl_d_always_exits (l : LineState) :
    ctrl_d l = HandlerResult.exitSignal := rfl

/-- C7 counterexample: on `"([)]"` the bracket pass of
`PythonCode._get_tokens` error-styles columns 0 and 2 (the `(` left unclosed
on the stack and the mismatched `)`), not columns 2 and 3: `]` matches the
`[` on top of the stack and stays plain. -/
theorem bracket_pass_counterexample :
    errorColumns (pythonCodeTokens baseBrackets) = [0, 2] ∧
      errorColumns (pythonCodeTokens baseBrackets) ≠ [2, 3] := by
  decide

/-- C7 amended: over `"([)]"` the code adapter's bracket pass classifies the
`(` at column 0 and the `)` at column 2 as error-styled, and leaves the `[`
and `]` (which match each other) with their original tokens. -/
theorem bracket_pass_tokens :
    pythonCodeTokens baseBrackets =
      [(Tok.errorTok, ['(']), (Tok.plain, ['[']), (Tok.errorTok, [')']),
       (Tok.plain, [']'])] := by
  decide

/-- C10: after every `PythonLine.set_text(value, ...)` call the `multiline`
flag equals whether the new value contains a newline, whatever the flag's
previous value. -/
theorem pythonLine_set_text_multiline (st : PythonLineSt) (value : List Char)
    (safe : Bool) :
    (pythonLineSetText st value safe).multiline = true ↔ '\n' ∈ value := by
  simp [pythonLineSetText, List.contains, List.elem_iff]

end PTK

namespace PTK

theorem viCallInsertChar_eq (st : ViSt) (c : Char) :
    viCallInsertChar st c =
      { viInsertChar { st with secondTab := false } c
        with lastCall := some "insert_char" } := rfl

theorem viInsertChar_cb (st : ViSt) (c : Char) (cb : OneCb)
    (h : st.ocb = some cb) :
    viInsertChar st c = { runCb cb c st with ocb := none } := by
  simp [viInsertChar, h]

theorem viInsertChar_digit (st : ViSt) (c : Char)
    (h1 : st.mode = ViMode.navigation) (h2 : st.ocb = none)
    (hd : c ∈ "123456789".data ∨ (argTruthy st.argCount = true ∧ c = '0')) :
    viInsertChar st c = setArg st (argCountAppend st.argCount c) := by
  simp only [viInsertChar, h2]
  rw [h1, if_pos rfl, if_pos hd]

theorem viInsertChar_fire (st : ViSt) (c : Char) (k hk : String)
    (h1 : st.mode = ViMode.navigation) (h2 : st.ocb = none)
    (hd : ¬ (c ∈ "123456789".data ∨ (argTruthy st.argCount = true ∧ c = '0')))
    (hf : st.current.find? (fun p => p.1 = String.singleton c) = some (k, hk)) :
    viInsertChar st c =
      { runHandle hk (argOr1 st.argCount) (setArg st none)
        with current := allHandles } := by
  simp only [viInsertChar, h2]
  rw [h1, if_pos rfl, if_neg hd, hf]

theorem viInsertChar_narrow (st : ViSt) (c : Char)
    (h1 : st.mode = ViMode.navigation) (h2 : st.ocb = none)
    (hd : ¬ (c ∈ "123456789".data ∨ (argTruthy st.argCount = true ∧ c = '0')))
    (hf : st.current.find? (fun p => p.1 = String.singleton c) = none)
    (ha : st.current.any (fun p => p.1.data.head? = some c) = true) :
    viInsertChar st c =
      { st with current := st.current.filterMap (fun p =>
          if p.1.data.head? = some c then some (p.1.drop 1, p.2) else none) } := by
  simp only [viInsertChar, h2]
  rw [h1, if_pos rfl, if_neg hd, hf]
  simp only [ha]
  rw [if_pos trivial]

theorem viInsertChar_reset (st : ViSt) (c : Char)
    (h1 : st.mode = ViMode.navigation) (h2 : st.ocb = none)
    (hd : ¬ (c ∈ "123456789".data ∨ (argTruthy st.argCount = true ∧ c = '0')))
    (hf : st.current.find? (fun p => p.1 = String.singleton c) = none)
    (ha : st.current.any (fun p => p.1.data.head? = some c) = false) :
    viInsertChar st c = { st with current := allHandles } := by
  simp only [viInsertChar, h2]
  rw [h1, if_pos rfl, if_neg hd, hf]
  simp only [ha]
  rw [if_neg (by simp)]

theorem runHandle_f_ocb (a : Int) (s : ViSt) :
    (runHandle "f" a s).ocb = some (OneCb.fCb a) := rfl

theorem runHandle_t_ocb (a : Int) (s : ViSt) :
    (runHandle "t" a s).ocb = some (OneCb.tCb a) := rfl

theorem runHandle_r_ocb (a : Int) (s : ViSt) :
    (runHandle "r" a s).ocb = some (OneCb.rCb a) := rfl

theorem runHandle_F_eq (a : Int) (s : ViSt) : runHandle "F" a s = s := rfl

theorem runHandle_T_eq (a : Int) (s : ViSt) : runHandle "T" a s = s := rfl

end PTK

namespace PTK

/-- A handler in navigation mode over the two-character buffer `"ab"` with
the cursor between them. -/
def navAB : ViSt :=
  { ViSt.initial with
      mode := ViMode.navigation,
      line := { LineState.initial with text := ['a', 'b'], cursor := 1 } }

/-- C3 counterexample: in navigation mode, pressing `F` installs no pending
one-character callback (its handler body is `pass`), and the very next
character is handled by the navigation dispatcher: after `F`, typing `h`
fires the `h` handler and moves the cursor left, from 1 to 0.  This
contradicts the claim that all five of `f`, `F`, `t`, `T`, `r` install a
callback that captures the next character. -/
theorem vi_F_no_callback_counterexample :
    (viCallInsertChar navAB 'F').ocb = none ∧
      (viCallInsertChar (viCallInsertChar navAB 'F') 'h').line.cursor = 0 ∧
      navAB.line.cursor = 1 := by
  refine ⟨rfl, rfl, rfl⟩

/-- C3 amended: in navigation mode (with the full table active and no pending
callback) the keys `f`, `t` and `r` install a pending one-character callback
capturing `arg_count or 1`, while `F` and `T` (whose handlers are `pass`)
install none; whenever a callback is pending, the next dispatched character
is delivered to that callback instead of the navigation dispatcher, and the
callback is then cleared, so the following character is dispatched
normally. -/
theorem vi_one_char_callback_flow :
    (∀ st : ViSt, st.mode = ViMode.navigation → st.ocb = none →
      st.current = allHandles →
      (viCallInsertChar st 'f').ocb = some (OneCb.fCb (argOr1 st.argCount)) ∧
      (viCallInsertChar st 't').ocb = some (OneCb.tCb (argOr1 st.argCount)) ∧
      (viCallInsertChar st 'r').ocb = some (OneCb.rCb (argOr1 st.argCount)) ∧
      (viCallInsertChar st 'F').ocb = none ∧
      (viCallInsertChar st 'T').ocb = none) ∧
    (∀ (st : ViSt) (cb : OneCb) (c : Char), st.ocb = some cb →
      viCallInsertChar st c =
        { runCb cb c { st with secondTab := false } with
            ocb := none, lastCall := some "insert_char" }) := by
  constructor
  · intro st h1 h2 h3
    have hnd : ∀ c : Char, c ∉ "123456789".data → c ≠ '0' →
        ¬ (c ∈ "123456789".data ∨ (argTruthy st.argCount = true ∧ c = '0')) := by
      intro c hc1 hc2 h
      rcases h with h | ⟨_, h⟩
      · exact hc1 h
      · exact hc2 h
    have base : ∀ (c : Char) (k : String),
        ({ st with secondTab := false } : ViSt).current.find?
            (fun p => p.1 = String.singleton c) = some (k, k) →
        c ∉ "123456789".data → c ≠ '0' →
        viInsertChar { st with secondTab := false } c =
          { runHandle k (argOr1 st.argCount)
              (setArg { st with secondTab := false } none)
            with current := allHandles } := by
      intro c k hfind hc1 hc2
      exact viInsertChar_fire _ c k k (by simp [h1]) (by simp [h2])
        (by simpa using hnd c hc1 hc2) hfind
    have hcur : ({ st with secondTab := false } : ViSt).current = allHandles := by
      simp [h3]
    refine ⟨?_, ?_, ?_, ?_, ?_⟩
    · rw [viCallInsertChar_eq,
        base 'f' "f" (by rw [hcur]; decide) (by decide) (by decide)]
      simp [runHandle_f_ocb]
    · rw [viCallInsertChar_eq,
        base 't' "t" (by rw [hcur]; decide) (by decide) (by decide)]
      simp [runHandle_t_ocb]
    · rw [viCallInsertChar_eq,
        base 'r' "r" (by rw [hcur]; decide) (by decide) (by decide)]
      simp [runHandle_r_ocb]
    · rw [viCallInsertChar_eq,
        base 'F' "F" (by rw [hcur]; decide) (by decide) (by decide)]
      simp [runHandle_F_eq, setArg, h2]
    · rw [viCallInsertChar_eq,
        base 'T' "T" (by rw [hcur]; decide) (by decide) (by decide)]
      simp [runHandle_T_eq, setArg, h2]
  · intro st cb c h
    rw [viCallInsertChar_eq, viInsertChar_cb _ _ cb (by simp [h])]

/-- C3 witness: at a concrete navigation state, `f` installs the callback
capturing the pending count 2, `F` installs none, and a pending `r`-callback
consumes the next character. -/
theorem vi_one_char_callback_flow_witness :
    ((viCallInsertChar { navAB with argCount := some 2 } 'f').ocb
        = some (OneCb.fCb 2) ∧
      (viCallInsertChar { navAB with argCount := some 2 } 't').ocb
        = some (OneCb.tCb 2) ∧
      (viCallInsertChar { navAB with argCount := some 2 } 'r').ocb
        = some (OneCb.rCb 2) ∧
      (viCallInsertChar { navAB with argCount := some 2 } 'F').ocb = none ∧
      (viCallInsertChar { navAB with argCount := some 2 } 'T').ocb = none) ∧
    viCallInsertChar { navAB with ocb := some (OneCb.rCb 1) } 'z' =
      { runCb (OneCb.rCb 1) 'z'
          { { navAB with ocb := some (OneCb.rCb 1) } with secondTab := false }
        with ocb := none, lastCall := some "insert_char" } :=
  ⟨vi_one_char_callback_flow.1 { navAB with argCount := some 2 } rfl rfl rfl,
   vi_one_char_callback_flow.2 { navAB with ocb := some (OneCb.rCb 1) } _ 'z' rfl⟩

end PTK

namespace PTK

/-- C5: in navigation mode (no pending callback), a typed character that is
neither a digit continuing the count, nor an exact key of the narrowed
table, nor the first character of any of its keys, resets the dispatcher to
the full navigation table while leaving `arg_count` (and the line) entirely
unchanged. -/
theorem vi_unmatched_prefix_resets (st : ViSt) (c : Char)
    (h1 : st.mode = ViMode.navigation) (h2 : st.ocb = none)
    (hd : ¬ (c ∈ "123456789".data ∨ (argTruthy st.argCount = true ∧ c = '0')))
    (hf : st.current.find? (fun p => p.1 = String.singleton c) = none)
    (ha : st.current.any (fun p => p.1.data.head? = some c) = false) :
    (viCallInsertChar st c).current = allHandles ∧
      (viCallInsertChar st c).argCount = st.argCount ∧
      (viCallInsertChar st c).line = st.line := by
  rw [viCallInsertChar_eq,
    viInsertChar_reset { st with secondTab := false } c (by simp [h1])
      (by simp [h2]) (by simpa using hd) (by simpa using hf)
      (by simpa using ha)]
  exact ⟨rfl, rfl, rfl⟩

/-- The table state after typing `d` in navigation mode: narrowed to the
suffixes of `dd`, `d$` and `dw`, with a pending count of 3. -/
def narrowedD : ViSt :=
  { navAB with
      argCount := some 3,
      current := [("d", "dd"), ("$", "d$"), ("w", "dw")] }

/-- C5 witness: at the concrete narrowed table after `d` (with a pending
count of 3), typing `q` — which matches no key and no key's first
character — restores the full table and keeps `arg_count = 3`. -/
theorem vi_unmatched_prefix_resets_witness :
    (viCallInsertChar narrowedD 'q').current = allHandles ∧
      (viCallInsertChar narrowedD 'q').argCount = narrowedD.argCount ∧
      (viCallInsertChar narrowedD 'q').line = narrowedD.line :=
  vi_unmatched_prefix_resets narrowedD 'q' rfl rfl (by decide) (by decide)
    (by decide)

/-- C6: the Vi numeric argument: (1) in navigation mode a digit `1`-`9`, or
`0` once a count is pending, accumulates through `_arg_count_append` without
firing any handler; (2) whatever is accumulated, `_arg_count_append` never
returns a value of one million or more (at the threshold it discards the
count); (3) when a key finally fires, its handler receives `arg_count or 1`
and the count is reset before the handler runs. -/
theorem vi_arg_count_spec :
    (∀ (st : ViSt) (c : Char), st.mode = ViMode.navigation → st.ocb = none →
      (c ∈ "123456789".data ∨ (argTruthy st.argCount = true ∧ c = '0')) →
      viCallInsertChar st c =
        { setArg { st with secondTab := false } (argCountAppend st.argCount c)
          with lastCall := some "insert_char" }) ∧
    (∀ (cur : Option Int) (c : Char) (v : Int),
      argCountAppend cur c = some v → v < 1000000) ∧
    (∀ (st : ViSt) (c : Char) (k hk : String), st.mode = ViMode.navigation →
      st.ocb = none →
      ¬ (c ∈ "123456789".data ∨ (argTruthy st.argCount = true ∧ c = '0')) →
      st.current.find? (fun p => p.1 = String.singleton c) = some (k, hk) →
      viCallInsertChar st c =
        { runHandle hk (argOr1 st.argCount)
            (setArg { st with secondTab := false } none)
          with current := allHandles, lastCall := some "insert_char" }) := by
  refine ⟨?_, ?_, ?_⟩
  · intro st c h1 h2 hd
    rw [viCallInsertChar_eq,
      viInsertChar_digit { st with secondTab := false } c (by simp [h1])
        (by simp [h2]) (by simpa using hd)]
  · intro cur c v h
    unfold argCountAppend at h
    by_cases hge : (1000000 : Int) ≤ argCountRaw cur c
    · rw [if_pos hge] at h
      exact absurd h (by simp)
    · rw [if_neg hge] at h
      have := Option.some.inj h
      omega
  · intro st c k hk h1 h2 hd hf
    rw [viCallInsertChar_eq,
      viInsertChar_fire { st with secondTab := false } c k hk (by simp [h1])
        (by simp [h2]) (by simpa using hd) (by simpa using hf)]

/-- C6 witness: with a pending count of 35, typing `9` accumulates to 359
(strictly below one million), and `w` then fires the `w` handler with the
accumulated count. -/
theorem vi_arg_count_spec_witness :
    viCallInsertChar { navAB with argCount := some 35 } '9' =
      { setArg { { navAB with argCount := some 35 } with secondTab := false }
          (argCountAppend (some 35) '9')
        with lastCall := some "insert_char" } ∧
    (359 : Int) < 1000000 ∧
    viCallInsertChar { navAB with argCount := some 359 } 'w' =
      { runHandle "w" (argOr1 (some 359))
          (setArg { { navAB with argCount := some 359 } with
              secondTab := false } none)
        with current := allHandles, lastCall := some "insert_char" } :=
  ⟨vi_arg_count_spec.1 { navAB with argCount := some 35 } '9' rfl rfl
      (by decide),
   vi_arg_count_spec.2.1 (some 35) '9' 359 (by decide),
   vi_arg_count_spec.2.2 { navAB with argCount := some 359 } 'w' "w" "w" rfl
      rfl (by decide) (by decide)⟩

end PTK

namespace PTK

/-- C8: one `Screen.write_char` call on a visible glyph, from any screen
state.  The source wraps when the glyph would reach or cross the right
margin (`x + wcwidth(char) >= columns`), which covers every double-width
glyph that would cross it: the cell is then written at column 0 of the next
row.  A glyph fitting strictly before the margin is written at the current
column, advancing the cursor by its width.  Consequently (for a glyph of
positive width at most the screen width) the written cell always lies
entirely inside one row: no cell is split across rows. -/
theorem write_char_wrap_spec (P : ScreenParams) (s : ScreenState) (c : Char)
    (tok : Tok) (ii : Bool) (hnl : c ≠ '\n') :
    (s.columns ≤ s.x + P.w c →
      ∃ cell : CellC,
        (ScreenState.write_char P s c tok ii).buffer
          = ((s.y + 1, (0 : Int)), cell) :: s.buffer) ∧
    (s.x + P.w c < s.columns →
      ∃ cell : CellC,
        (ScreenState.write_char P s c tok ii).buffer
          = ((s.y, s.x), cell) :: s.buffer ∧
        (ScreenState.write_char P s c tok ii).x = s.x + P.w c ∧
        (ScreenState.write_char P s c tok ii).y = s.y) ∧
    (0 ≤ s.x → 1 ≤ P.w c → P.w c ≤ s.columns →
      ∃ (y' : Nat) (x' : Int) (cell : CellC),
        (ScreenState.write_char P s c tok ii).buffer
          = ((y', x'), cell) :: s.buffer ∧ 0 ≤ x' ∧ x' + P.w c ≤ s.columns) := by
  by_cases hw : s.columns ≤ s.x + P.w c
  · have hbuf : (ScreenState.write_char P s c tok ii).buffer
        = ((s.y + 1, (0 : Int)),
            (⟨c, P.styleFor (if s.grayed then Tok.abortedTok else tok)⟩ : CellC))
          :: s.buffer := by
      simp [ScreenState.write_char, wcCore, ScreenState.save_input_pos, hnl, hw]
      split_ifs <;> rfl
    refine ⟨fun _ => ⟨_, hbuf⟩, fun hlt => absurd hlt (by omega), ?_⟩
    intro hx0 hw1 hwc
    exact ⟨s.y + 1, 0, _, hbuf, le_refl 0, by omega⟩
  · have hlt : s.x + P.w c < s.columns := by omega
    have hbuf : (ScreenState.write_char P s c tok ii).buffer
        = ((s.y, s.x),
            (⟨c, P.styleFor (if s.grayed then Tok.abortedTok else tok)⟩ : CellC))
          :: s.buffer := by
      simp [ScreenState.write_char, wcCore, ScreenState.save_input_pos, hnl, hw]
      split_ifs <;> rfl
    have hxx : (ScreenState.write_char P s c tok ii).x = s.x + P.w c := by
      simp [ScreenState.write_char, wcCore, ScreenState.save_input_pos, hnl, hw]
      split_ifs <;> rfl
    have hyy : (ScreenState.write_char P s c tok ii).y = s.y := by
      simp [ScreenState.write_char, wcCore, ScreenState.save_input_pos, hnl, hw]
      split_ifs <;> rfl
    refine ⟨fun hge => absurd hge hw, fun _ => ⟨_, hbuf, hxx, hyy⟩, ?_⟩
    intro hx0 hw1 hwc
    exact ⟨s.y, s.x, _, hbuf, hx0, by omega⟩

/-- wcwidth assigning every glyph double width, with no styling. -/
def wideP : ScreenParams := ⟨fun _ => 2, fun _ => none, fun _ l => l⟩

/-- A 4-column screen whose cursor is one column short of the margin. -/
def tightScreen : ScreenState := { ScreenState.init 4 false with x := 3 }

/-- C8 witness: a double-width glyph at column 3 of a 4-column screen would
cross the margin and is written at column 0 of row 1. -/
theorem write_char_wrap_spec_witness :
    ∃ cell : CellC,
      (ScreenState.write_char wideP tightScreen 'Z' Tok.plain true).buffer
        = ((tightScreen.y + 1, (0 : Int)), cell) :: tightScreen.buffer :=
  (write_char_wrap_spec wideP tightScreen 'Z' Tok.plain true (by decide)).1
    (by decide)

theorem intercalate_cons_cons (sep a b : List Char) (l : List (List Char)) :
    List.intercalate sep (a :: b :: l)
      = a ++ sep ++ List.intercalate sep (b :: l) := by
  simp [List.intercalate, List.intersperse]

theorem serRows_eq_intercalate (f : Nat → List Char) (l : List Nat) :
    serRows f l = List.intercalate CRLF (l.map f) := by
  induction l with
  | nil => simp [serRows, List.intercalate]
  | cons r rest ih =>
    cases rest with
    | nil => simp [serRows, List.intercalate]
    | cons r2 rs =>
      rw [List.map_cons, List.map_cons, intercalate_cons_cons]
      rw [show serRows f (r :: r2 :: rs) = f r ++ CRLF ++ serRows f (r2 :: rs)
        from rfl]
      rw [ih, List.map_cons]

theorem newline_writes_keep_empty (P : ScreenParams) (seq : List (Tok × Bool)) :
    ∀ s : ScreenState, s.buffer = [] → s.createdRows = [] → s.slpFunc = none →
      (seq.foldl (fun s tb => ScreenState.write_char P s '\n' tb.1 tb.2) s).buffer = [] ∧
      (seq.foldl (fun s tb => ScreenState.write_char P s '\n' tb.1 tb.2) s).createdRows = [] ∧
      (seq.foldl (fun s tb => ScreenState.write_char P s '\n' tb.1 tb.2) s).slpFunc = none := by
  induction seq with
  | nil => intro s hb hc hs; exact ⟨hb, hc, hs⟩
  | cons tb rest ih =>
    intro s hb hc hs
    have hstep : (ScreenState.write_char P s '\n' tb.1 tb.2).buffer = [] ∧
        (ScreenState.write_char P s '\n' tb.1 tb.2).createdRows = [] ∧
        (ScreenState.write_char P s '\n' tb.1 tb.2).slpFunc = none := by
      simp [ScreenState.write_char, wcCore, ScreenState.save_input_pos, hb, hc, hs]
      split_ifs <;> simp [hb, hc, hs]
    exact ih _ hstep.1 hstep.2.1 hstep.2.2

/-- C9: `Screen.output` is partial at the empty screen: after any sequence of
`write_char` calls that only ever wrote newlines (so no buffer row was ever
materialised), `output` takes the `max` of an empty key set and fails
(modelled as `none`).  Whenever some row was materialised — in particular
whenever a visible character was written — it returns the rows serialised in
order, joined by CRLF. -/
theorem screen_output_partiality :
    (∀ (P : ScreenParams) (cols : Int) (g : Bool) (seq : List (Tok × Bool)),
      ScreenState.output P
        (seq.foldl (fun s tb => ScreenState.write_char P s '\n' tb.1 tb.2)
          (ScreenState.init cols g)) = none) ∧
    (∀ (P : ScreenParams) (s : ScreenState) (m : Nat),
      s.createdRows.max? = some m →
      ScreenState.output P s
        = some (List.intercalate CRLF
            ((List.range (m + 1)).map (s.rowOutput P)))) := by
  constructor
  · intro P cols g seq
    have h := newline_writes_keep_empty P seq (ScreenState.init cols g) rfl rfl rfl
    simp [ScreenState.output, h.2.1]
  · intro P s m hm
    simp [ScreenState.output, hm, serRows_eq_intercalate]

/-- wcwidth assigning every glyph width 1, with no styling. -/
def nlP : ScreenParams := ⟨fun _ => 1, fun _ => none, fun _ l => l⟩

/-- A screen to which the single visible character `a` was written. -/
def aScreen : ScreenState :=
  ScreenState.write_char nlP (ScreenState.init 80 false) 'a' Tok.plain true

/-- C9 witness: a screen that saw only two newline writes has no output;
the screen holding just `a` serialises its single row. -/
theorem screen_output_partiality_witness :
    ScreenState.output nlP
      (([(Tok.plain, true), (Tok.other 0, false)] : List (Tok × Bool)).foldl
        (fun s tb => ScreenState.write_char nlP s '\n' tb.1 tb.2)
        (ScreenState.init 80 false)) = none ∧
    ScreenState.output nlP aScreen
      = some (List.intercalate CRLF
          ((List.range (0 + 1)).map (aScreen.rowOutput nlP))) :=
  ⟨screen_output_partiality.1 nlP 80 false
      [(Tok.plain, true), (Tok.other 0, false)],
   screen_output_partiality.2 nlP aScreen 0 (by decide)⟩

end PTK

namespace PTK

/-- The part of `_render_to_str`'s output that follows the prologue, together
with the new renderer state: it depends only on the render context (through
the freshly built screen), never on the previous renderer state. -/
def renderRest (P : ScreenParams) (columns : Int) (hcl : Bool)
    (ctx : RenderContext) : Option (List Char × RState) :=
  let screen := getNewScreen P columns hcl ctx
  match ScreenState.output P screen with
  | none => none
  | some so =>
    if ctx.accept ∨ ctx.abort then
      some (so ++ CRLF, ⟨0, 0⟩)
    else
      match screen.mappings.find?
          (fun e => e.1 = ((ctx.cursorRow : Int), (ctx.cursorCol : Int))) with
      | none => none
      | some e =>
        let cy := e.2.1
        let cx := e.2.2
        let dy : Int := (screen.y : Int) - (cy : Int)
        let m1 := if dy ≠ 0 then cursorUp dy else []
        let m2 := if cx < screen.x then cursorBackward (screen.x - cx) else []
        let m3 := if screen.x < cx then cursorForward (cx - screen.x) else []
        some (so ++ m1 ++ m2 ++ m3, ⟨screen.y, cy⟩)

theorem renderToStr_shape (P : ScreenParams) (columns : Int) (hcl : Bool)
    (ctx : RenderContext) (st : RState) :
    renderToStr P columns hcl ctx st
      = (renderRest P columns hcl ctx).map
          (fun pr => (prologue st ++ pr.1, pr.2)) := by
  simp only [renderToStr, renderRest]
  cases hout : ScreenState.output P (getNewScreen P columns hcl ctx) with
  | none => rfl
  | some so =>
    by_cases hab : ctx.accept ∨ ctx.abort
    · simp [hab, List.append_assoc]
    · cases hfind : (getNewScreen P columns hcl ctx).mappings.find?
          (fun e => e.1 = ((ctx.cursorRow : Int), (ctx.cursorCol : Int))) with
      | none => simp [hab, hfind]
      | some e => simp [hab, hfind, List.append_assoc]

/-- C2 amended: `_render_to_str` performs a full repaint every tick: whenever
it succeeds, its output is the unconditional cursor-reset prologue followed
by a remainder (the whole screen serialisation plus cursor motion) that
depends only on the render context.  In particular, calling the renderer
twice in a row with no state change emits, on the second call, exactly the
same bytes beyond the prologue as the first call — the full screen again —
rather than zero bytes. -/
theorem renderToStr_full_repaint (P : ScreenParams) (columns : Int)
    (hcl : Bool) (ctx : RenderContext) (st : RState) (out : List Char)
    (st' : RState)
    (h : renderToStr P columns hcl ctx st = some (out, st')) :
    ∃ rest, out = prologue st ++ rest ∧
      ∀ st₂ : RState, renderToStr P columns hcl ctx st₂
        = some (prologue st₂ ++ rest, st') := by
  rw [renderToStr_shape] at h
  cases hr : renderRest P columns hcl ctx with
  | none => rw [hr] at h; simp at h
  | some pr =>
    rw [hr] at h
    simp only [Option.map_some', Option.some.injEq, Prod.mk.injEq] at h
    obtain ⟨h1, h2⟩ := h
    refine ⟨pr.1, h1.symm, fun st₂ => ?_⟩
    rw [renderToStr_shape, hr]
    simp [h2]

/-- A renderer whose external collaborators are trivial: every glyph has
width 1 and no token is styled. -/
def rcP : ScreenParams := ⟨fun _ => 1, fun _ => none, fun _ l => l⟩

/-- A minimal render context: prompt `"> "`, code text `"a"`, cursor at the
end of the code, nothing else. -/
def rcCtx : RenderContext :=
  ⟨[(Tok.plain, ['>', ' '])], [], [(Tok.plain, ['a'])], [], false, false, [],
   0, 1⟩

/-- C2 counterexample: rendering `rcCtx` from the initial renderer state
returns the state `⟨0, 0⟩` unchanged, so calling the renderer again with no
state change is the very same call; its output `"\r ESC[J > a"` extends the
prologue `"\r ESC[J"` by the three bytes `"> a"` — the full screen is
re-emitted, not zero bytes beyond the prologue. -/
theorem render_rerender_counterexample :
    renderToStr rcP 80 false rcCtx ⟨0, 0⟩
      = some ("\r\x1b[J> a".data, (⟨0, 0⟩ : RState)) ∧
    ("\r\x1b[J> a".data : List Char) ≠ prologue ⟨0, 0⟩ := by
  exact ⟨by decide, by decide⟩

/-- C2 witness for the amended theorem, at the concrete context `rcCtx`. -/
theorem renderToStr_full_repaint_witness :
    ∃ rest, "\r\x1b[J> a".data = prologue ⟨0, 0⟩ ++ rest ∧
      ∀ st₂ : RState, renderToStr rcP 80 false rcCtx st₂
        = some (prologue st₂ ++ rest, (⟨0, 0⟩ : RState)) :=
  renderToStr_full_repaint rcP 80 false rcCtx ⟨0, 0⟩ "\r\x1b[J> a".data
    ⟨0, 0⟩ (by decide)

end PTK
